import Mathlib

/-!
Verification of the run-history ledger `RunLog`
(`src/tools/ARIAtools/util/run_logging.py`).

The Python class keeps an in-memory dictionary `logs` (run identifier →
run record) and persists it as one JSON file.  We embed the state as the
pair of the file contents (`none` when the file does not exist) and the
in-memory dictionary.  Python dictionaries are modelled by association
lists with Python's update semantics (an existing key is updated in
place, a new key is appended); JSON round-tripping through
`json.dump`/`json.load` is the identity on JSON values, so the file
directly holds a ledger value.

The two external collaborators (`open_shp` from `ARIAtools.util.shp`,
which is not part of the sources, and shapely's `from_wkt`) are
parameters of the operations that use them: `open_shp` returns the WKT
text of the geometry loaded from a value (or an error, which propagates
unchanged), and `from_wkt` parses WKT text into a geometry of an
arbitrary type with decidable (geometric) equality.

Python exceptions are modelled with `Except Err`.
-/

namespace RunLogging

-- JSON-serializable Python values (`atr_value - [any]`).  Python `==`
-- on such values is modelled as structural equality.
mutual

inductive JVal where
  | str : String → JVal
  | int : Int → JVal
  | bool : Bool → JVal
  | null : JVal
  | arr : JArr → JVal
  | obj : JObj → JVal
deriving DecidableEq, Repr

inductive JArr where
  | nil : JArr
  | cons : JVal → JArr → JArr
deriving DecidableEq, Repr

inductive JObj where
  | nil : JObj
  | cons : String → JVal → JObj → JObj
deriving DecidableEq, Repr

end

/-- Python exceptions raised by the code paths we model. -/
inductive Err where
  | typeError : Err
  | indexError : Err
  | keyError : Err
  | geomError : Err
deriving DecidableEq, Repr

/-- `d[k]` lookup in a Python dict, as `Option` (a `KeyError` is `none`). -/
def dget {α : Type} : List (String × α) → String → Option α
  | [], _ => none
  | (k', v) :: rest, k => if k' = k then some v else dget rest k

/-- `d[k] = v` assignment in a Python dict: update in place if the key is
present, append at the end otherwise. -/
def dset {α : Type} : List (String × α) → String → α → List (String × α)
  | [], k, v => [(k, v)]
  | (k', v') :: rest, k, v =>
      if k' = k then (k, v) :: rest else (k', v') :: dset rest k v

/-- `[*d.keys()]`: the keys in insertion order. -/
def dkeys {α : Type} (d : List (String × α)) : List String := d.map Prod.fst

/-- Python's `<=` on strings restricted to their character lists:
lexicographic comparison by code point. -/
def strLeAux : List Char → List Char → Bool
  | [], _ => true
  | _ :: _, [] => false
  | a :: as, b :: bs =>
    if a.toNat < b.toNat then true
    else if b.toNat < a.toNat then false
    else strLeAux as bs

/-- Python's `<=` on strings: lexicographic comparison by code point. -/
def strLe (a b : String) : Bool := strLeAux a.data b.data

/-- The descending order used by `log_names.sort(reverse=True)`:
`geB a b` holds when `a` is at least `b`. -/
def geB (a b : String) : Prop := strLe b a = true

instance : DecidableRel geB := fun a b => instDecidableEqBool (strLe b a) true

/-- `log_names.sort(reverse=True)`: the identifiers sorted descending. -/
def sortDesc (l : List String) : List String := List.insertionSort geB l

/-- `m` is the greatest of the identifiers `ks` (the "most recent run"
of the spec, `log_names[0]` in the code). -/
def IsMax (ks : List String) (m : String) : Prop :=
  m ∈ ks ∧ ∀ x ∈ ks, strLe x m = true

/-- `m` is the greatest and `p` the second-greatest of the identifiers
`ks` (the "previous run" of the spec, `log_names[1]` in the code). -/
def IsSecondMax (ks : List String) (m p : String) : Prop :=
  IsMax ks m ∧ p ∈ ks ∧ p ≠ m ∧ ∀ x ∈ ks, x ≠ m → strLe x p = true

instance (ks : List String) (m : String) : Decidable (IsMax ks m) :=
  decidable_of_iff (m ∈ ks ∧ ∀ x ∈ ks, strLe x m = true) Iff.rfl

instance (ks : List String) (m p : String) : Decidable (IsSecondMax ks m p) :=
  decidable_of_iff
    (IsMax ks m ∧ p ∈ ks ∧ p ≠ m ∧ ∀ x ∈ ks, x ≠ m → strLe x p = true) Iff.rfl

/-- A run record: attribute name → value (`self.logs[run]`). -/
abbrev Record := List (String × JVal)

/-- The ledger: run identifier → run record (`self.logs`). -/
abbrev Ledger := List (String × Record)

/-- The state of a `RunLog` object together with its backing file
`<workdir>/RunLog.json`: `file = none` means the file does not exist. -/
structure St where
  file : Option Ledger
  logs : Ledger
deriving DecidableEq, Repr

/-- `RunLog.load`: if the file exists, replace the in-memory ledger with
its contents and return the identifiers sorted descending; otherwise
leave the state unchanged and return `None` (modelled as `none`). -/
def load (s : St) : St × Option (List String) :=
  match s.file with
  | some l => ({ s with logs := l }, some (sortDesc (dkeys l)))
  | none => (s, none)

/-- `RunLog.dump`: serialize the in-memory ledger to the file. -/
def dump (s : St) : St := { s with file := some s.logs }

/-- The two attribute names with special handling in `RunLog.write`. -/
def reservedNames : List String := ["prods_TOTbbox", "prods_TOTbbox_metadatalyr"]

/-- `RunLog.write`: reload, assign the attribute in the most recent run's
record, derive the `_poly` companion for the two reserved names via the
`open_shp` collaborator, and dump.  `log_names[0]` raises a `TypeError`
when `load` returned `None` and an `IndexError` when the list is empty. -/
def write (openShp : JVal → Except Err String) (s : St)
    (name : String) (value : JVal) : Except Err St :=
  match load s with
  | (_, none) => .error .typeError
  | (_, some []) => .error .indexError
  | (s1, some (currentRun :: _)) =>
    match dget s1.logs currentRun with
    | none => .error .keyError
    | some r =>
      let r1 := dset r name value
      if name ∈ reservedNames then
        match openShp value with
        | .error e => .error e
        | .ok w =>
          let r2 := dset r1 (name ++ "_poly") (.str w)
          .ok (dump { s1 with logs := dset s1.logs currentRun r2 })
      else
        .ok (dump { s1 with logs := dset s1.logs currentRun r1 })

/-- `RunLog.create_new_entry`, parametrized by the freshly generated
timestamp identifier `run`: load the existing file if present, insert an
empty record under `run`, and dump. -/
def create_new_entry (s : St) (run : String) : St :=
  let s1 := if s.file.isSome then (load s).1 else s
  dump { s1 with logs := dset s1.logs run [] }

/-- `RunLog.get_current`: reload and return the record of
`log_names[0]`. -/
def get_current (s : St) : Except Err (St × Record) :=
  match load s with
  | (_, none) => .error .typeError
  | (_, some []) => .error .indexError
  | (s1, some (c :: _)) =>
    match dget s1.logs c with
    | none => .error .keyError
    | some r => .ok (s1, r)

/-- `RunLog.get_previous`: reload and return the record of
`log_names[1]`. -/
def get_previous (s : St) : Except Err (St × Record) :=
  match load s with
  | (_, none) => .error .typeError
  | (_, some []) => .error .indexError
  | (_, some [_]) => .error .indexError
  | (s1, some (_ :: p :: _)) =>
    match dget s1.logs p with
    | none => .error .keyError
    | some r => .ok (s1, r)

/-- shapely's `from_wkt` applied to a stored attribute value: the value
must be a string, and the parser itself may fail. -/
def fromWktV {G : Type} (fromWkt : String → Except Err G) : JVal → Except Err G
  | .str w => fromWkt w
  | _ => .error .typeError

/-- The comparison part of `RunLog.determine_rerun`: given the loaded
ledger and the descending identifier list, compute the `rerun` boolean.
With fewer than two identifiers no comparison is made.  Otherwise equal
`args` set `rerun := True`, and when both records carry a
`prods_TOTbbox_poly` the geometric comparison of the parsed polygons
overwrites that result unconditionally. -/
def computeRerun {G : Type} [DecidableEq G] (fromWkt : String → Except Err G)
    (lg : Ledger) (names : List String) : Except Err Bool :=
  match names with
  | c :: p :: _ =>
    match dget lg c, dget lg p with
    | some currLog, some prevLog =>
      let r0 : Bool :=
        match dget currLog "args", dget prevLog "args" with
        | some ca, some pa => decide (ca = pa)
        | _, _ => false
      match dget currLog "prods_TOTbbox_poly", dget prevLog "prods_TOTbbox_poly" with
      | some cb, some pb =>
        match fromWktV fromWkt cb with
        | .error e => .error e
        | .ok g1 =>
          match fromWktV fromWkt pb with
          | .error e => .error e
          | .ok g2 => .ok (decide (g1 = g2))
      | _, _ => .ok r0
    | _, _ => .error .keyError
  | _ => .ok false

/-- `RunLog.determine_rerun`: reload (`len(None)` raises a `TypeError`),
compute the `rerun` boolean, write it back under key `rerun` and return
it. -/
def determine_rerun {G : Type} [DecidableEq G]
    (openShp : JVal → Except Err String) (fromWkt : String → Except Err G)
    (s : St) : Except Err (St × Bool) :=
  match load s with
  | (_, none) => .error .typeError
  | (s1, some names) =>
    match computeRerun fromWkt s1.logs names with
    | .error e => .error e
    | .ok rerun =>
      match write openShp s1 "rerun" (.bool rerun) with
      | .error e => .error e
      | .ok s2 => .ok (s2, rerun)

/-! ## Order lemmas for the identifier sort -/

theorem strLeAux_total : ∀ as bs, strLeAux as bs = true ∨ strLeAux bs as = true := by
  intro as
  induction as with
  | nil => intro bs; left; rfl
  | cons a as ih =>
    intro bs
    cases bs with
    | nil => right; rfl
    | cons b bs =>
      rcases lt_trichotomy a.toNat b.toNat with h | h | h
      · left; simp [strLeAux, h]
      · rcases ih bs with h2 | h2
        · left; simp [strLeAux, h, lt_irrefl, h2]
        · right; simp [strLeAux, ← h, lt_irrefl, h2]
      · right; simp [strLeAux, h]

instance : IsTotal String geB :=
  ⟨fun a b => strLeAux_total b.data a.data⟩

theorem strLeAux_trans : ∀ as bs cs, strLeAux as bs = true → strLeAux bs cs = true →
    strLeAux as cs = true := by
  intro as
  induction as with
  | nil => intro bs cs _ _; rfl
  | cons a as ih =>
    intro bs cs h1 h2
    cases bs with
    | nil => simp [strLeAux] at h1
    | cons b bs =>
      cases cs with
      | nil => simp [strLeAux] at h2
      | cons c cs =>
        simp only [strLeAux] at h1 h2 ⊢
        rcases lt_trichotomy a.toNat b.toNat with hab | hab | hab
        · rcases lt_trichotomy b.toNat c.toNat with hbc | hbc | hbc
          · simp [lt_trans hab hbc]
          · simp [hbc ▸ hab]
          · exfalso
            rw [if_neg (not_lt_of_gt hbc), if_pos hbc] at h2
            exact Bool.false_ne_true h2
        · rcases lt_trichotomy b.toNat c.toNat with hbc | hbc | hbc
          · simp [hab ▸ hbc]
          · have hac : a.toNat = c.toNat := hab.trans hbc
            have h1' : strLeAux as bs = true := by simpa [hab, lt_irrefl] using h1
            have h2' : strLeAux bs cs = true := by simpa [hbc, lt_irrefl] using h2
            simpa [hac, lt_irrefl] using ih bs cs h1' h2'
          · exfalso
            rw [if_neg (not_lt_of_gt hbc), if_pos hbc] at h2
            exact Bool.false_ne_true h2
        · exfalso
          rw [if_neg (not_lt_of_gt hab), if_pos hab] at h1
          exact Bool.false_ne_true h1

instance : IsTrans String geB :=
  ⟨fun a b c h1 h2 => strLeAux_trans c.data b.data a.data h2 h1⟩

theorem char_toNat_inj {a b : Char} (h : a.toNat = b.toNat) : a = b :=
  Char.ext (UInt32.ext h)

theorem strLeAux_antisymm : ∀ as bs, strLeAux as bs = true → strLeAux bs as = true →
    as = bs := by
  intro as
  induction as with
  | nil =>
    intro bs _ h2
    cases bs with
    | nil => rfl
    | cons b bs => simp [strLeAux] at h2
  | cons a as ih =>
    intro bs h1 h2
    cases bs with
    | nil => simp [strLeAux] at h1
    | cons b bs =>
      simp only [strLeAux] at h1 h2
      rcases lt_trichotomy a.toNat b.toNat with hab | hab | hab
      · exfalso
        rw [if_neg (not_lt_of_gt hab), if_pos hab] at h2
        exact Bool.false_ne_true h2
      · have h1' : strLeAux as bs = true := by simpa [hab, lt_irrefl] using h1
        have h2' : strLeAux bs as = true := by simpa [hab, lt_irrefl] using h2
        rw [char_toNat_inj hab, ih bs h1' h2']
      · exfalso
        rw [if_neg (not_lt_of_gt hab), if_pos hab] at h1
        exact Bool.false_ne_true h1

theorem strLe_antisymm {a b : String} (h1 : strLe a b = true) (h2 : strLe b a = true) :
    a = b :=
  String.ext (strLeAux_antisymm a.data b.data h1 h2)

theorem strLeAux_refl : ∀ as, strLeAux as as = true := by
  intro as
  induction as with
  | nil => rfl
  | cons a as ih => simp [strLeAux, lt_irrefl, ih]

theorem strLe_refl (a : String) : strLe a a = true := strLeAux_refl a.data

theorem sortDesc_perm (l : List String) : List.Perm (sortDesc l) l :=
  List.perm_insertionSort geB l

theorem sortDesc_sorted (l : List String) : List.Sorted geB (sortDesc l) :=
  List.sorted_insertionSort geB l

theorem mem_sortDesc {l : List String} {x : String} : x ∈ sortDesc l ↔ x ∈ l :=
  (sortDesc_perm l).mem_iff

/-- The head of the descending sort is the greatest identifier. -/
theorem sortDesc_head_of_isMax {ks : List String} {m : String} (h : IsMax ks m) :
    ∃ t, sortDesc ks = m :: t := by
  obtain ⟨hm, hmax⟩ := h
  cases hsd : sortDesc ks with
  | nil =>
    exfalso
    have hm' : m ∈ sortDesc ks := mem_sortDesc.mpr hm
    rw [hsd] at hm'
    exact List.not_mem_nil m hm'
  | cons a t =>
    have hsorted := sortDesc_sorted ks
    rw [hsd] at hsorted
    obtain ⟨hge, _⟩ := List.sorted_cons.mp hsorted
    have ha : a ∈ ks := mem_sortDesc.mp (by rw [hsd]; exact List.mem_cons_self a t)
    have ham : strLe a m = true := hmax a ha
    have hma : strLe m a = true := by
      have hm' : m ∈ a :: t := by rw [← hsd]; exact mem_sortDesc.mpr hm
      rcases List.mem_cons.mp hm' with h1 | h2
      · rw [h1]
        exact strLe_refl a
      · exact hge m h2
    have ham' : a = m := strLe_antisymm ham hma
    exact ⟨t, by rw [ham']⟩

/-- With distinct identifiers, the first two elements of the descending
sort are the greatest and the second-greatest identifier. -/
theorem sortDesc_pair_of_isSecondMax {ks : List String} {m p : String}
    (hnd : ks.Nodup) (h : IsSecondMax ks m p) :
    ∃ t, sortDesc ks = m :: p :: t := by
  obtain ⟨hmax, hp, hpm, hsec⟩ := h
  obtain ⟨t, ht⟩ := sortDesc_head_of_isMax hmax
  have hnd' : (sortDesc ks).Nodup := (sortDesc_perm ks).nodup_iff.mpr hnd
  cases t with
  | nil =>
    exfalso
    have hp' : p ∈ sortDesc ks := mem_sortDesc.mpr hp
    rw [ht] at hp'
    rcases List.mem_cons.mp hp' with h1 | h2
    · exact hpm h1
    · exact List.not_mem_nil p h2
  | cons b t' =>
    have hsorted := sortDesc_sorted ks
    rw [ht] at hsorted hnd'
    obtain ⟨_, hsorted'⟩ := List.sorted_cons.mp hsorted
    obtain ⟨hge2, _⟩ := List.sorted_cons.mp hsorted'
    have hb : b ∈ ks := mem_sortDesc.mp (by
      rw [ht]
      exact List.mem_cons_of_mem m (List.mem_cons_self b t'))
    have hbm : b ≠ m := by
      intro e
      obtain ⟨hm1, _⟩ := List.nodup_cons.mp hnd'
      exact hm1 (e ▸ List.mem_cons_self b t')
    have hbp : strLe b p = true := hsec b hb hbm
    have hpb : strLe p b = true := by
      have hp' : p ∈ m :: b :: t' := by rw [← ht]; exact mem_sortDesc.mpr hp
      rcases List.mem_cons.mp hp' with h1 | h2
      · exact absurd h1 hpm
      · rcases List.mem_cons.mp h2 with h3 | h4
        · rw [h3]
          exact strLe_refl b
        · exact hge2 p h4
    have hbp' : b = p := strLe_antisymm hbp hpb
    exact ⟨t', by rw [← hbp']; exact ht⟩

/-! ## Dictionary lemmas -/

theorem dget_dset_self {α : Type} (d : List (String × α)) (k : String) (v : α) :
    dget (dset d k v) k = some v := by
  induction d with
  | nil => simp [dset, dget]
  | cons q rest ih =>
    obtain ⟨k0, v0⟩ := q
    by_cases h : k0 = k
    · simp [dset, h, dget]
    · simp [dset, h, dget, ih]

theorem dget_dset_ne {α : Type} (d : List (String × α)) {k k' : String} (v : α)
    (h : k ≠ k') : dget (dset d k v) k' = dget d k' := by
  induction d with
  | nil => simp [dset, dget, h]
  | cons q rest ih =>
    obtain ⟨k0, v0⟩ := q
    by_cases h0 : k0 = k
    · simp [dset, h0, dget, h]
    · simp [dset, h0, dget, ih]

theorem dkeys_dset_of_mem {α : Type} (d : List (String × α)) {k : String} (v : α)
    (h : k ∈ dkeys d) : dkeys (dset d k v) = dkeys d := by
  induction d with
  | nil => simp [dkeys] at h
  | cons q rest ih =>
    obtain ⟨k0, v0⟩ := q
    by_cases h0 : k0 = k
    · simp [dset, h0, dkeys]
    · have hmem : k ∈ dkeys rest := by
        rcases List.mem_cons.mp h with h1 | h2
        · exact absurd h1.symm h0
        · exact h2
      have hrec := ih hmem
      simp only [dkeys] at hrec
      simp [dset, h0, dkeys, hrec]

theorem dget_some_of_mem {α : Type} (d : List (String × α)) {k : String}
    (h : k ∈ dkeys d) : ∃ v, dget d k = some v := by
  induction d with
  | nil => simp [dkeys] at h
  | cons q rest ih =>
    obtain ⟨k0, v0⟩ := q
    by_cases h0 : k0 = k
    · exact ⟨v0, by simp [dget, h0]⟩
    · have hmem : k ∈ dkeys rest := by
        rcases List.mem_cons.mp h with h1 | h2
        · exact absurd h1.symm h0
        · exact h2
      obtain ⟨v, hv⟩ := ih hmem
      exact ⟨v, by simp [dget, h0, hv]⟩

/-- `name + "_poly"` is never the name itself. -/
theorem append_poly_ne (name : String) : name ++ "_poly" ≠ name := by
  intro h
  have hd : (name ++ "_poly").data = name.data := congrArg String.data h
  rw [String.data_append] at hd
  have hlen := congrArg List.length hd
  simp at hlen

/-! ## Shapes of successful operations -/

theorem load_of_some {s : St} {l : Ledger} (hf : s.file = some l) :
    load s = (⟨some l, l⟩, some (sortDesc (dkeys l))) := by
  cases s
  cases hf
  rfl

/-- A non-reserved `write` on a ledger whose file holds `l` with most
recent identifier `c` (carrying record `r`) succeeds and persists
`l[c][name] = v`. -/
theorem write_ok_of_nonreserved (openShp : JVal → Except Err String) {s : St}
    {l : Ledger} {c : String} {t : List String} {r : Record} {name : String} (v : JVal)
    (hf : s.file = some l) (hsd : sortDesc (dkeys l) = c :: t)
    (hr : dget l c = some r) (hres : name ∉ reservedNames) :
    write openShp s name v =
      Except.ok ⟨some (dset l c (dset r name v)), dset l c (dset r name v)⟩ := by
  rw [write, load_of_some hf, hsd]
  simp [hr, hres, dump]

/-- A reserved `write` whose geometry loading succeeds with WKT text `w`
persists both `l[c][name] = v` and `l[c][name + "_poly"] = w`. -/
theorem write_ok_of_reserved (openShp : JVal → Except Err String) {s : St}
    {l : Ledger} {c : String} {t : List String} {r : Record} {name : String}
    {v : JVal} {w : String}
    (hf : s.file = some l) (hsd : sortDesc (dkeys l) = c :: t)
    (hr : dget l c = some r) (hres : name ∈ reservedNames)
    (hshp : openShp v = Except.ok w) :
    write openShp s name v =
      Except.ok ⟨some (dset l c (dset (dset r name v) (name ++ "_poly") (JVal.str w))),
        dset l c (dset (dset r name v) (name ++ "_poly") (JVal.str w))⟩ := by
  rw [write, load_of_some hf, hsd]
  simp [hr, hres, hshp, dump]

/-- Unfolding of `determine_rerun` on a state whose file exists. -/
theorem determine_rerun_eq {G : Type} [DecidableEq G]
    (openShp : JVal → Except Err String) (fromWkt : String → Except Err G)
    {s : St} {l : Ledger} (hf : s.file = some l) :
    determine_rerun openShp fromWkt s =
      match computeRerun fromWkt l (sortDesc (dkeys l)) with
      | .error e => .error e
      | .ok rerun =>
        match write openShp ⟨some l, l⟩ "rerun" (.bool rerun) with
        | .error e => .error e
        | .ok s2 => .ok (s2, rerun) := by
  rw [determine_rerun, load_of_some hf]

/-- Success path of `determine_rerun`: a computed boolean and a
successful write-back give the returned pair. -/
theorem determine_rerun_ok {G : Type} [DecidableEq G]
    (openShp : JVal → Except Err String) (fromWkt : String → Except Err G)
    {s : St} {l : Ledger} {rb : Bool} {s2 : St}
    (hf : s.file = some l)
    (hcr : computeRerun fromWkt l (sortDesc (dkeys l)) = Except.ok rb)
    (hw : write openShp ⟨some l, l⟩ "rerun" (JVal.bool rb) = Except.ok s2) :
    determine_rerun openShp fromWkt s = Except.ok (s2, rb) := by
  rw [determine_rerun_eq openShp fromWkt hf]
  simp only [hcr, hw]

/-! ## Claims -/

/-- C8: when the ledger file does not exist, `load` returns the explicit
"no runs" signal `none` (a value distinct from an empty list), never
raises (it is a total function), leaves the in-memory ledger unchanged,
and calling it twice in that state returns the signal both times. -/
theorem C8_load_absent_idempotent (s : St) (h : s.file = none) :
    load s = (s, none) ∧ (load (load s).1).2 = none ∧
      (load s).2 ≠ some [] := by
  have h1 : load s = (s, none) := by
    cases s
    cases h
    rfl
  refine ⟨h1, by simp [h1], by simp [h1]⟩

/-- C8 witness: a state with a missing file and a non-trivial in-memory
ledger; the double load keeps returning `none` and changes nothing. -/
theorem C8_load_absent_idempotent_witness :
    load ⟨none, [("20240101-000000", [])]⟩ =
        (⟨none, [("20240101-000000", [])]⟩, none) ∧
      (load (load ⟨none, [("20240101-000000", [])]⟩).1).2 = none ∧
      (load ⟨none, [("20240101-000000", [])]⟩).2 ≠ some [] :=
  C8_load_absent_idempotent ⟨none, [("20240101-000000", [])]⟩ rfl

/-- C3: `write` on a ledger with no runs (the identifier list is empty,
or the ledger file is absent) fails rather than succeeding. -/
theorem C3_write_no_runs (openShp : JVal → Except Err String) (s : St)
    (name : String) (v : JVal) (h : s.file = none ∨ s.file = some []) :
    ∃ e, write openShp s name v = Except.error e := by
  rcases h with h | h
  · refine ⟨Err.typeError, ?_⟩
    rw [write]
    cases s
    cases h
    rfl
  · refine ⟨Err.indexError, ?_⟩
    rw [write, load_of_some h]
    rfl

/-- C3 witness: writing with an absent ledger file fails. -/
theorem C3_write_no_runs_witness :
    ∃ e, write (fun _ => Except.ok "") ⟨none, []⟩ "x" JVal.null =
      Except.error e :=
  C3_write_no_runs (fun _ => Except.ok "") ⟨none, []⟩ "x" JVal.null (Or.inl rfl)

/-- C9: `create_new_entry` on an existing ledger file persists the
merged ledger in which the fresh identifier carries an empty record and
every other identifier keeps its record unchanged; when the identifier
collides with an existing one, its record is silently overwritten by the
empty record. -/
theorem C9_create_new_entry_merge (s : St) (l : Ledger) (run : String)
    (hf : s.file = some l) :
    create_new_entry s run = ⟨some (dset l run []), dset l run []⟩ ∧
      dget (dset l run []) run = some [] ∧
      (∀ k, k ≠ run → dget (dset l run []) k = dget l k) := by
  refine ⟨?_, dget_dset_self l run [], ?_⟩
  · rw [create_new_entry]
    cases s
    cases hf
    simp [load, dump]
  · intro k hk
    exact dget_dset_ne l [] hk.symm

/-- C9 witness: adding run "20240102-101010" to a one-run ledger keeps
the old record and stores an empty record under the new identifier. -/
theorem C9_create_new_entry_merge_witness :
    create_new_entry ⟨some [("20240101-093012", [("args", JVal.int 1)])], []⟩
        "20240102-101010" =
      ⟨some [("20240101-093012", [("args", JVal.int 1)]), ("20240102-101010", [])],
        [("20240101-093012", [("args", JVal.int 1)]), ("20240102-101010", [])]⟩ ∧
      dget [("20240101-093012", [("args", JVal.int 1)]), ("20240102-101010", [])]
        "20240102-101010" = some [] ∧
      (∀ k, k ≠ "20240102-101010" →
        dget [("20240101-093012", [("args", JVal.int 1)]), ("20240102-101010", [])] k =
          dget [("20240101-093012", [("args", JVal.int 1)])] k) :=
  C9_create_new_entry_merge
    ⟨some [("20240101-093012", [("args", JVal.int 1)])], []⟩
    [("20240101-093012", [("args", JVal.int 1)])] "20240102-101010" rfl

/-- C1 counterexample: with no ledger file at all, `determine_rerun`
does not return `false` — it raises a `TypeError` (`len(None)`), because
`load` returned the `None` signal. -/
theorem C1_counterexample_absent_file :
    determine_rerun (fun _ => Except.ok "") (fun _ => Except.ok ()) ⟨none, []⟩ =
      Except.error Err.typeError := rfl

/-- C1 (amended): for every ledger state whose file exists and holds
exactly one run record, `determine_rerun` short-circuits to
`rerun = false`, performs no args or polygon comparison (the result does
not depend on the collaborators `openShp` and `fromWkt`), writes the
flag back and returns `false`.  (With zero runs or an absent file it
raises instead.) -/
theorem C1_single_run_short_circuit {G : Type} [DecidableEq G]
    (openShp : JVal → Except Err String) (fromWkt : String → Except Err G)
    (s : St) (k : String) (r : Record) (hf : s.file = some [(k, r)]) :
    determine_rerun openShp fromWkt s =
      Except.ok (⟨some [(k, dset r "rerun" (JVal.bool false))],
        [(k, dset r "rerun" (JVal.bool false))]⟩, false) := by
  have hsd : sortDesc (dkeys [(k, r)]) = [k] := rfl
  have hr : dget [(k, r)] k = some r := by simp [dget]
  have hres : "rerun" ∉ reservedNames := by decide
  have hw := write_ok_of_nonreserved openShp (JVal.bool false)
    (s := ⟨some [(k, r)], [(k, r)]⟩) rfl hsd hr hres
  rw [determine_rerun, load_of_some hf, hsd]
  simp [computeRerun, hw, dset]

/-- C1 witness: a single-run ledger, with trivial collaborators; the
rerun flag comes back `false` and is persisted. -/
theorem C1_single_run_short_circuit_witness :
    determine_rerun (fun _ => Except.ok "") (fun _ => Except.ok ())
        ⟨some [("20240101-093012", [("args", JVal.int 1)])], []⟩ =
      Except.ok (⟨some [("20240101-093012",
          [("args", JVal.int 1), ("rerun", JVal.bool false)])],
        [("20240101-093012", [("args", JVal.int 1), ("rerun", JVal.bool false)])]⟩,
        false) :=
  C1_single_run_short_circuit (fun _ => Except.ok "") (fun _ => Except.ok ())
    ⟨some [("20240101-093012", [("args", JVal.int 1)])], []⟩
    "20240101-093012" [("args", JVal.int 1)] rfl

/-- C4: a reserved-name `write` whose geometry loading resolves stores,
in the most recent run's record, the companion `<name>_poly` attribute
holding the WKT text of the loaded geometry, while the original value
stays under the reserved name itself; the whole ledger is persisted. -/
theorem C4_bbox_poly_derivation (openShp : JVal → Except Err String) {s : St}
    {l : Ledger} {m : String} {r : Record} {name : String} {v : JVal} {w : String}
    (hf : s.file = some l) (hm : IsMax (dkeys l) m)
    (hr : dget l m = some r)
    (hname : name = "prods_TOTbbox" ∨ name = "prods_TOTbbox_metadatalyr")
    (hshp : openShp v = Except.ok w) :
    ∃ r', write openShp s name v = Except.ok ⟨some (dset l m r'), dset l m r'⟩ ∧
      dget r' (name ++ "_poly") = some (JVal.str w) ∧
      dget r' name = some v := by
  obtain ⟨t, hsd⟩ := sortDesc_head_of_isMax hm
  have hres : name ∈ reservedNames := by
    rcases hname with h | h <;> simp [reservedNames, h]
  refine ⟨dset (dset r name v) (name ++ "_poly") (JVal.str w),
    write_ok_of_reserved openShp hf hsd hr hres hshp,
    dget_dset_self _ _ _, ?_⟩
  rw [dget_dset_ne (dset r name v) (JVal.str w) (append_poly_ne name)]
  exact dget_dset_self r name v

/-- C4 witness: writing `prods_TOTbbox` over a one-run ledger with a
loader that resolves the path to a concrete WKT text. -/
theorem C4_bbox_poly_derivation_witness :
    ∃ r', write (fun _ => Except.ok "POLYGON ((0 0, 1 0, 1 1, 0 0))")
        ⟨some [("20240101-093012", [])], []⟩ "prods_TOTbbox"
        (JVal.str "path/to.shp") =
      Except.ok ⟨some (dset [("20240101-093012", [])] "20240101-093012" r'),
        dset [("20240101-093012", [])] "20240101-093012" r'⟩ ∧
      dget r' ("prods_TOTbbox" ++ "_poly") =
        some (JVal.str "POLYGON ((0 0, 1 0, 1 1, 0 0))") ∧
      dget r' "prods_TOTbbox" = some (JVal.str "path/to.shp") :=
  C4_bbox_poly_derivation (fun _ => Except.ok "POLYGON ((0 0, 1 0, 1 1, 0 0))")
    rfl (by decide) rfl (Or.inl rfl) rfl

/-- C5: a non-reserved `write` of any value succeeds, and reloading the
ledger yields the same value for that attribute under the same (still
most recent) run identifier. -/
theorem C5_write_reload_round_trip (openShp : JVal → Except Err String) {s : St}
    {l : Ledger} {m : String} {r : Record} {name : String} (v : JVal)
    (hf : s.file = some l) (hm : IsMax (dkeys l) m)
    (hr : dget l m = some r) (hres : name ∉ reservedNames) :
    ∃ s' t r', write openShp s name v = Except.ok s' ∧
      (load s').2 = some (m :: t) ∧
      dget (load s').1.logs m = some r' ∧
      dget r' name = some v := by
  obtain ⟨t, hsd⟩ := sortDesc_head_of_isMax hm
  have hw := write_ok_of_nonreserved openShp v hf hsd hr hres
  have hkeys : dkeys (dset l m (dset r name v)) = dkeys l :=
    dkeys_dset_of_mem l _ hm.1
  have hsd' : sortDesc (dkeys (dset l m (dset r name v))) = m :: t := by
    rw [hkeys, hsd]
  refine ⟨⟨some (dset l m (dset r name v)), dset l m (dset r name v)⟩, t,
    dset r name v, hw, ?_, ?_, dget_dset_self r name v⟩
  · rw [load_of_some rfl]
    simp [hsd']
  · rw [load_of_some rfl]
    simp [dget_dset_self]

/-- C5 witness: writing `azimuthAngle = 7` on a two-run ledger and
reading it back after a reload. -/
theorem C5_write_reload_round_trip_witness :
    ∃ s' t r', write (fun _ => Except.ok "")
        ⟨some [("20240101-093012", []), ("20240102-101010", [])], []⟩
        "azimuthAngle" (JVal.int 7) = Except.ok s' ∧
      (load s').2 = some ("20240102-101010" :: t) ∧
      dget (load s').1.logs "20240102-101010" = some r' ∧
      dget r' "azimuthAngle" = some (JVal.int 7) :=
  C5_write_reload_round_trip (fun _ => Except.ok "") (JVal.int 7) rfl
    (by decide) rfl (by decide)

/-- C10: a `write` with a non-reserved name never invokes the geometry
loader (its result is the same for every loader), creates no
`<name>_poly` sibling attribute, and leaves every other run record, and
every other attribute of the most recent record, unchanged. -/
theorem C10_write_frame (openShp : JVal → Except Err String) {s : St}
    {l : Ledger} {m : String} {r : Record} {name : String} (v : JVal)
    (hf : s.file = some l) (hm : IsMax (dkeys l) m)
    (hr : dget l m = some r) (hres : name ∉ reservedNames) :
    (∀ os1 os2 : JVal → Except Err String,
      write os1 s name v = write os2 s name v) ∧
    ∃ r', write openShp s name v =
        Except.ok ⟨some (dset l m r'), dset l m r'⟩ ∧
      dget r' (name ++ "_poly") = dget r (name ++ "_poly") ∧
      (∀ a, a ≠ name → dget r' a = dget r a) ∧
      (∀ k, k ≠ m → dget (dset l m r') k = dget l k) := by
  obtain ⟨t, hsd⟩ := sortDesc_head_of_isMax hm
  constructor
  · intro os1 os2
    rw [write_ok_of_nonreserved os1 v hf hsd hr hres,
      write_ok_of_nonreserved os2 v hf hsd hr hres]
  · refine ⟨dset r name v, write_ok_of_nonreserved openShp v hf hsd hr hres,
      dget_dset_ne r v (append_poly_ne name).symm, ?_, ?_⟩
    · intro a ha
      exact dget_dset_ne r v ha.symm
    · intro k hk
      exact dget_dset_ne l (dset r name v) hk.symm

/-- C10 witness: writing a plain attribute on a two-run ledger; the
loader is irrelevant, no `_poly` sibling appears, and the previous run's
record and the other attributes survive unchanged. -/
theorem C10_write_frame_witness :
    (∀ os1 os2 : JVal → Except Err String,
      write os1 ⟨some [("20240101-093012", [("keep", JVal.int 3)]),
          ("20240102-101010", [("old", JVal.null)])], []⟩ "x" (JVal.int 9) =
      write os2 ⟨some [("20240101-093012", [("keep", JVal.int 3)]),
          ("20240102-101010", [("old", JVal.null)])], []⟩ "x" (JVal.int 9)) ∧
    ∃ r', write (fun _ => Except.error Err.geomError)
        ⟨some [("20240101-093012", [("keep", JVal.int 3)]),
          ("20240102-101010", [("old", JVal.null)])], []⟩ "x" (JVal.int 9) =
        Except.ok ⟨some (dset [("20240101-093012", [("keep", JVal.int 3)]),
            ("20240102-101010", [("old", JVal.null)])] "20240102-101010" r'),
          dset [("20240101-093012", [("keep", JVal.int 3)]),
            ("20240102-101010", [("old", JVal.null)])] "20240102-101010" r'⟩ ∧
      dget r' ("x" ++ "_poly") = dget [("old", JVal.null)] ("x" ++ "_poly") ∧
      (∀ a, a ≠ "x" → dget r' a = dget [("old", JVal.null)] a) ∧
      (∀ k, k ≠ "20240102-101010" →
        dget (dset [("20240101-093012", [("keep", JVal.int 3)]),
          ("20240102-101010", [("old", JVal.null)])] "20240102-101010" r') k =
        dget [("20240101-093012", [("keep", JVal.int 3)]),
          ("20240102-101010", [("old", JVal.null)])] k) :=
  C10_write_frame (fun _ => Except.error Err.geomError) (JVal.int 9) rfl
    (by decide) rfl (by decide)

/-- C2: when both the current and the previous run records carry a
`prods_TOTbbox_poly` attribute whose WKT texts parse, the result of
`determine_rerun` is exactly the geometric equality of the two parsed
polygons, regardless of the two records' `args` attributes. -/
theorem C2_bbox_overrides_args {G : Type} [DecidableEq G]
    (openShp : JVal → Except Err String) (fromWkt : String → Except Err G)
    {s : St} {l : Ledger} {m p : String} {clog plog : Record}
    {wc wp : String} {gc gp : G}
    (hf : s.file = some l) (hnd : (dkeys l).Nodup)
    (hsm : IsSecondMax (dkeys l) m p)
    (hc : dget l m = some clog) (hp : dget l p = some plog)
    (hcb : dget clog "prods_TOTbbox_poly" = some (JVal.str wc))
    (hpb : dget plog "prods_TOTbbox_poly" = some (JVal.str wp))
    (hgc : fromWkt wc = Except.ok gc) (hgp : fromWkt wp = Except.ok gp) :
    ∃ s', determine_rerun openShp fromWkt s =
      Except.ok (s', decide (gc = gp)) := by
  obtain ⟨t, hsd⟩ := sortDesc_pair_of_isSecondMax hnd hsm
  have hcr : computeRerun fromWkt l (m :: p :: t) =
      Except.ok (decide (gc = gp)) := by
    simp [computeRerun, hc, hp, hcb, hpb, fromWktV, hgc, hgp]
  have hres : "rerun" ∉ reservedNames := by decide
  have hw := write_ok_of_nonreserved openShp (JVal.bool (decide (gc = gp)))
    (s := ⟨some l, l⟩) rfl hsd hc hres
  exact ⟨_, determine_rerun_ok openShp fromWkt hf (by rw [hsd]; exact hcr) hw⟩

/-- C2 witness: differing `args`, two different WKT texts that parse to
the same geometry; `determine_rerun` returns `true` — the polygon
comparison alone decides. -/
theorem C2_bbox_overrides_args_witness :
    ∃ s', determine_rerun (fun _ => Except.ok "")
        (fun w => if w = "PA" then Except.ok (5 : ℕ)
          else if w = "PB" then Except.ok 5 else Except.error Err.geomError)
        ⟨some [("20240102-101010",
            [("args", JVal.int 1), ("prods_TOTbbox_poly", JVal.str "PA")]),
          ("20240101-093012",
            [("args", JVal.int 2), ("prods_TOTbbox_poly", JVal.str "PB")])], []⟩ =
      Except.ok (s', decide ((5 : ℕ) = 5)) :=
  C2_bbox_overrides_args (fun _ => Except.ok "")
    (fun w => if w = "PA" then Except.ok (5 : ℕ)
      else if w = "PB" then Except.ok 5 else Except.error Err.geomError)
    (m := "20240102-101010") (p := "20240101-093012")
    rfl (by decide) (by decide) rfl rfl rfl rfl rfl rfl

/-- C6: whenever `determine_rerun` succeeds on a ledger whose file holds
at least one run, it stores the boolean it computed under key `rerun` in
the most recent run's record, persists the ledger, and returns that same
boolean. -/
theorem C6_rerun_written_back {G : Type} [DecidableEq G]
    (openShp : JVal → Except Err String) (fromWkt : String → Except Err G)
    {s s' : St} {l : Ledger} {m : String} {b : Bool}
    (hf : s.file = some l) (hm : IsMax (dkeys l) m)
    (hdr : determine_rerun openShp fromWkt s = Except.ok (s', b)) :
    s'.file = some s'.logs ∧
    ∃ r', dget s'.logs m = some r' ∧ dget r' "rerun" = some (JVal.bool b) := by
  obtain ⟨t, hsd⟩ := sortDesc_head_of_isMax hm
  obtain ⟨r, hr⟩ := dget_some_of_mem l hm.1
  rw [determine_rerun_eq openShp fromWkt hf, hsd] at hdr
  cases hcr : computeRerun fromWkt l (m :: t) with
  | error e =>
    rw [hcr] at hdr
    simp at hdr
  | ok rb =>
    have hres : "rerun" ∉ reservedNames := by decide
    have hw := write_ok_of_nonreserved openShp (JVal.bool rb)
      (s := ⟨some l, l⟩) rfl hsd hr hres
    rw [hcr] at hdr
    simp only [hw] at hdr
    rw [Except.ok.injEq, Prod.mk.injEq] at hdr
    obtain ⟨hs', hb⟩ := hdr
    subst hs' hb
    exact ⟨rfl, dset r "rerun" (JVal.bool rb),
      dget_dset_self l m (dset r "rerun" (JVal.bool rb)),
      dget_dset_self r "rerun" (JVal.bool rb)⟩

/-- C6 witness: a single-run ledger; the returned `false` is stored
under `rerun` and the file holds the updated ledger. -/
theorem C6_rerun_written_back_witness :
    (⟨some [("20240101-093012", [("rerun", JVal.bool false)])],
        [("20240101-093012", [("rerun", JVal.bool false)])]⟩ : St).file =
      some (⟨some [("20240101-093012", [("rerun", JVal.bool false)])],
        [("20240101-093012", [("rerun", JVal.bool false)])]⟩ : St).logs ∧
    ∃ r', dget (⟨some [("20240101-093012", [("rerun", JVal.bool false)])],
        [("20240101-093012", [("rerun", JVal.bool false)])]⟩ : St).logs
        "20240101-093012" = some r' ∧
      dget r' "rerun" = some (JVal.bool false) :=
  C6_rerun_written_back (fun _ => Except.ok "") (fun _ => Except.ok ())
    (s := ⟨some [("20240101-093012", [])], []⟩) rfl (by decide) rfl

/-- C7: `get_previous` fails with fewer than two recorded runs (zero
runs, or an absent file), and with at least two runs (distinct
identifiers) returns the record of the second-greatest identifier. -/
theorem C7_get_previous_second_greatest (s : St) :
    ((s.file = none ∨ ∃ l, s.file = some l ∧ (dkeys l).length < 2) →
      ∃ e, get_previous s = Except.error e) ∧
    (∀ l m p r, s.file = some l → (dkeys l).Nodup →
      IsSecondMax (dkeys l) m p → dget l p = some r →
      get_previous s = Except.ok (⟨some l, l⟩, r)) := by
  constructor
  · rintro (h | ⟨l, hf, hlen⟩)
    · refine ⟨Err.typeError, ?_⟩
      rw [get_previous]
      cases s
      cases h
      rfl
    · have hlen' : (sortDesc (dkeys l)).length < 2 := by
        rw [(sortDesc_perm (dkeys l)).length_eq]
        exact hlen
      rw [get_previous, load_of_some hf]
      cases hsd : sortDesc (dkeys l) with
      | nil => exact ⟨Err.indexError, rfl⟩
      | cons x xs =>
        cases xs with
        | nil => exact ⟨Err.indexError, rfl⟩
        | cons y ys =>
          exfalso
          rw [hsd] at hlen'
          simp at hlen'
          omega
  · intro l m p r hf hnd hsm hr
    obtain ⟨t, hsd⟩ := sortDesc_pair_of_isSecondMax hnd hsm
    rw [get_previous, load_of_some hf, hsd]
    simp [hr]

/-- C7 witness: a two-run ledger; `get_previous` returns the record of
the older (second-greatest) identifier. -/
theorem C7_get_previous_second_greatest_witness :
    get_previous ⟨some [("20240101-093012", [("x", JVal.int 1)]),
        ("20240102-101010", [])], []⟩ =
      Except.ok (⟨some [("20240101-093012", [("x", JVal.int 1)]),
          ("20240102-101010", [])],
        [("20240101-093012", [("x", JVal.int 1)]), ("20240102-101010", [])]⟩,
        [("x", JVal.int 1)]) :=
  (C7_get_previous_second_greatest ⟨some [("20240101-093012", [("x", JVal.int 1)]),
      ("20240102-101010", [])], []⟩).2
    [("20240101-093012", [("x", JVal.int 1)]), ("20240102-101010", [])]
    "20240102-101010" "20240101-093012" [("x", JVal.int 1)]
    rfl (by decide) (by decide) rfl

end RunLogging
